import Mathlib

/-!
Verification of the MarkerStack subsystem (src/markerstack.py).

The Python module implements two Sublime Text commands over a per-view state:

* `MarkerStackPushCommand.run` — push the current caret/viewport as a marker;
* `MarkerStackPopCommand.run`  — pop the top marker and restore caret/viewport.

The view state this code touches is embedded shallowly:

* `sel`           — the view's selection list (`vw.sel()`), a list of regions;
* `viewport`      — `vw.viewport_position()`, a coordinate pair.  The host's
  DIP coordinates are floats that this code only stores and restores verbatim
  (no arithmetic is ever performed on them), so they are modelled as integers;
* `stack_setting` — the value stored in the view settings under the key
  `_stack_key` (`"_marker_stack"`); `none` models an absent key.  No other
  settings key is read or written by the code;
* `regions`       — the view's named-region registry (`add_regions` /
  `get_regions` / `erase_regions`), an association list from string keys to
  region lists.

Fallible Python operations are modelled with `Option`: a command run that
would raise (`vw.sel()[0]` on an empty selection, `list.pop()` on an empty
list) returns `none`.
-/

/-- Sublime `Region(a, b)`; `Region(pt)` is the zero-width `Region(pt, pt)`.
The caret ("insertion point") of a selection region is its `b` end. -/
structure Region where
  a : Int
  b : Int
deriving DecidableEq

/-- The marker dictionary built by the Python class `MarkerStackMarker`:
`{_vp_pos_key: vp, _icon_key: icon_key}`, i.e. `{"vp": vp, "id": icon_key}`.
Note it stores the viewport vector and the icon key only — no caret point. -/
structure MarkerStackMarker where
  vp : Int × Int
  id : String
deriving DecidableEq

/-- Source constant `_rgn_key_prefix`. -/
def rgn_key_pref : String := "_marker_stack_icon_"

/-- The unique region key computed by push: `f'{_rgn_key_prefix}{marker_idx}'`. -/
def icon_key_of (marker_idx : Nat) : String :=
  rgn_key_pref ++ toString marker_idx

/-- The per-view state the two commands read and write. -/
structure ViewState where
  sel : List Region
  viewport : Int × Int
  stack_setting : Option (List MarkerStackMarker)
  regions : List (String × List Region)
deriving DecidableEq

/-- `vw.get_regions(key)`: the regions stored under `key`, `[]` if none. -/
def get_regions (regions : List (String × List Region)) (key : String) :
    List Region :=
  match regions.find? (fun p => p.1 == key) with
  | some p => p.2
  | none => []

/-- `vw.erase_regions(key)`: drop the entry stored under `key`. -/
def erase_regions (regions : List (String × List Region)) (key : String) :
    List (String × List Region) :=
  regions.filter (fun p => p.1 != key)

/-- `vw.add_regions(key, rgns, ...)`: (re)bind `key` to `rgns`, replacing any
regions previously stored under the same key. -/
def add_regions (regions : List (String × List Region)) (key : String)
    (rgns : List Region) : List (String × List Region) :=
  (key, rgns) :: erase_regions regions key

/-- `MarkerStackPushCommand.run(self, edit, testing=False)`.  The `testing`
flag is unused by the Python body and is omitted.  Returns `none` exactly when
the Python code would raise: `vw.sel()[0]` on an empty selection list. -/
def MarkerStackPushCommand.run (vw : ViewState) : Option ViewState :=
  -- 2. mstack = vw_settings.get(_stack_key); if None, an empty list.
  let mstack := vw.stack_setting.getD []
  -- 3. pt = vw.sel()[0].b  (IndexError when the selection is empty)
  match vw.sel with
  | [] => none
  | r :: _ =>
    let pt := r.b
    let vppos := vw.viewport
    -- 4. marker_idx = len(mstack)
    let marker_idx := mstack.length
    -- 5. icon_key = f'{_rgn_key_prefix}{marker_idx}'; append the marker
    let icon_key := icon_key_of marker_idx
    let marker : MarkerStackMarker := ⟨vppos, icon_key⟩
    let mstack1 := mstack ++ [marker]
    -- 6. vw_settings.set(_stack_key, mstack)
    -- 7. vw.add_regions(icon_key, [sublime.Region(pt)], ...)
    some { vw with
      stack_setting := some mstack1,
      regions := add_regions vw.regions icon_key [⟨pt, pt⟩] }

/-- `MarkerStackPopCommand.run(self, edit, testing=False)`.  The `testing`
flag is unused by the Python body and is omitted.  Returns `none` exactly when
the Python code would raise: `mstack.pop()` on a stored empty list. -/
def MarkerStackPopCommand.run (vw : ViewState) : Option ViewState :=
  -- 2. mstack = vw_settings.get(_stack_key)
  match vw.stack_setting with
  | none =>
    -- "Erase key from regions if not already done." (the literal prefix key)
    some { vw with regions := erase_regions vw.regions rgn_key_pref }
  | some mstack =>
    -- 3. marker = mstack.pop()  (IndexError when the stored list is empty)
    match mstack.getLast? with
    | none => none
    | some marker =>
      let mstack1 := mstack.dropLast
      -- if len(mstack) == 0: erase _stack_key else set _stack_key
      let new_setting := if mstack1.length = 0 then none else some mstack1
      -- 4. rgns = vw.get_regions(marker[_icon_key])
      let icon_key := marker.id
      let rgns := get_regions vw.regions icon_key
      -- 5. vw.erase_regions(icon_key)  (does not affect the settings)
      let new_regions := erase_regions vw.regions icon_key
      -- 6. vw.set_viewport_position(marker[_vp_pos_key], ...)
      -- 7. if len(rgns) > 0: replace all selections with [rgns[0]]
      match rgns with
      | [] =>
        some { vw with
          stack_setting := new_setting
          regions := new_regions
          viewport := marker.vp }
      | rgn :: _ =>
        some { vw with
          stack_setting := new_setting
          regions := new_regions
          viewport := marker.vp
          sel := [rgn] }

/-- Numeric value of a decimal digit character. -/
def charVal (c : Char) : Nat := c.toNat - 48

/-- Value of a most-significant-first decimal digit string. -/
def valOfDigits (l : List Char) : Nat :=
  l.foldl (fun a c => a * 10 + charVal c) 0
/-- One step of the per-view state machine: a successful push command, a
successful pop command, or host/user activity (buffer edits moving regions,
caret or viewport moves) — which never touches the persisted stack key. -/
inductive Step : ViewState → ViewState → Prop where
  | push {vw vw' : ViewState} :
      MarkerStackPushCommand.run vw = some vw' → Step vw vw'
  | pop {vw vw' : ViewState} :
      MarkerStackPopCommand.run vw = some vw' → Step vw vw'
  | host {vw vw' : ViewState} :
      vw'.stack_setting = vw.stack_setting → Step vw vw'

/-- States reachable from an initial state whose persisted stack key is
absent ("NoStack"). -/
inductive Reachable : ViewState → Prop where
  | init {vw : ViewState} : vw.stack_setting = none → Reachable vw
  | step {vw vw' : ViewState} : Reachable vw → Step vw vw' → Reachable vw'

/-- Shape invariant of the persisted stack value: when the key is present,
the stored list is non-empty and its element at index `i` carries the anchor
key `icon_key_of i`. -/
def StackInv : Option (List MarkerStackMarker) → Prop
  | none => True
  | some l => l ≠ [] ∧ ∀ i (h : i < l.length), (l.get ⟨i, h⟩).id = icon_key_of i
/-- User navigation between commands: set the selection to one region and
the viewport to one vector.  It is not a buffer edit, so the registered
regions are unchanged. -/
def navigate (vw : ViewState) (r : Region) (vp : Int × Int) : ViewState :=
  { vw with sel := [r], viewport := vp }

/-- Navigate to each scripted (caret region, viewport) pair in turn, pushing
a marker at each stop. -/
def pushSeq (vw : ViewState) :
    List (Region × (Int × Int)) → Option ViewState
  | [] => some vw
  | (r, vp) :: rest =>
    (MarkerStackPushCommand.run (navigate vw r vp)).bind
      (fun vw1 => pushSeq vw1 rest)

/-- Pop `n` times in a row. -/
def popIter : Nat → ViewState → Option ViewState
  | 0, vw => some vw
  | n + 1, vw => (MarkerStackPopCommand.run vw).bind (popIter n)

/-- The marker list that the pushes of `script` build, starting at stack
index `base`: entry `j` records the scripted viewport and key `base + j`. -/
def markersOf (base : Nat) :
    List (Region × (Int × Int)) → List MarkerStackMarker
  | [] => []
  | (_, vp) :: rest => ⟨vp, icon_key_of base⟩ :: markersOf (base + 1) rest
/-- After the pushes of `script` (starting from an absent stack), and
between the pops that undo them: the persisted stack holds exactly the
markers of the remaining script, and the registry binds key `j` to the
zero-width region at the caret captured by scripted push `j`. -/
def PopReady (script : List (Region × (Int × Int))) (vw : ViewState) : Prop :=
  vw.stack_setting =
    (if script = [] then none else some (markersOf 0 script)) ∧
  ∀ j (h : j < script.length),
    get_regions vw.regions (icon_key_of j) =
      [⟨(script.get ⟨j, h⟩).1.b, (script.get ⟨j, h⟩).1.b⟩]
/-- Host collaborator model (the editor's edit-tracking, out of scope of the
plugin code): a buffer edit repositions every registered region's endpoints
through a point mapping `f`, and never touches the view settings. -/
def applyEdit (f : Int → Int) (regions : List (String × List Region)) :
    List (String × List Region) :=
  regions.map (fun p => (p.1, p.2.map (fun rg => (⟨f rg.a, f rg.b⟩ : Region))))


/-!
### Injectivity of the key scheme

`icon_key_of i = rgn_key_pref ++ toString i`, so distinctness of keys reduces
to injectivity of the decimal printer `Nat.repr`, proved here by exhibiting a
left inverse on digit lists.
-/

theorem valOfDigits_concat (xs : List Char) (c : Char) :
    valOfDigits (xs ++ [c]) = valOfDigits xs * 10 + charVal c := by
  simp [valOfDigits, List.foldl_append]

theorem toDigitsCore_shift (fuel : Nat) :
    ∀ (n : Nat) (ds : List Char),
      Nat.toDigitsCore 10 fuel n ds = Nat.toDigitsCore 10 fuel n [] ++ ds := by
  induction fuel with
  | zero => intro n ds; simp [Nat.toDigitsCore]
  | succ fuel ih =>
    intro n ds
    simp only [Nat.toDigitsCore]
    by_cases h : n / 10 = 0
    · simp [h]
    · simp only [h, if_false]
      rw [ih (n / 10) [Nat.digitChar (n % 10)],
        ih (n / 10) (Nat.digitChar (n % 10) :: ds), List.append_assoc]
      rfl

theorem charVal_digitChar (d : Nat) (h : d < 10) :
    charVal (Nat.digitChar d) = d := by
  interval_cases d <;> rfl

theorem toDigitsCore_val (fuel : Nat) :
    ∀ n : Nat, n < fuel → valOfDigits (Nat.toDigitsCore 10 fuel n []) = n := by
  induction fuel with
  | zero => intro n h; omega
  | succ fuel ih =>
    intro n hn
    simp only [Nat.toDigitsCore]
    by_cases h : n / 10 = 0
    · have hlt : n < 10 := by omega
      have hmod : n % 10 = n := Nat.mod_eq_of_lt hlt
      simp [h, valOfDigits, hmod, charVal_digitChar n hlt]
    · have hpos : 0 < n := by
        rcases Nat.eq_zero_or_pos n with h0 | h0
        · exact absurd (by simp [h0]) h
        · exact h0
      have hdiv : n / 10 < n := Nat.div_lt_self hpos (by omega)
      simp only [h, if_false]
      rw [toDigitsCore_shift, valOfDigits_concat,
        ih (n / 10) (by omega),
        charVal_digitChar (n % 10) (Nat.mod_lt n (by omega))]
      omega

theorem natRepr_inj {m n : Nat} (h : Nat.repr m = Nat.repr n) : m = n := by
  have hdata : Nat.toDigits 10 m = Nat.toDigits 10 n := by
    have := congrArg String.data h
    simpa [Nat.repr, List.asString] using this
  have hm := toDigitsCore_val (m + 1) m (by omega)
  have hn := toDigitsCore_val (n + 1) n (by omega)
  simp only [Nat.toDigits] at hdata
  rw [hdata] at hm
  omega

theorem natToString_inj {m n : Nat} (h : toString m = toString n) : m = n :=
  natRepr_inj h

theorem icon_key_of_inj {i j : Nat} (h : icon_key_of i = icon_key_of j) :
    i = j := by
  apply natToString_inj
  have hdata := congrArg String.data h
  simp only [icon_key_of, String.data_append] at hdata
  exact congrArg String.mk (List.append_cancel_left hdata)

/-!
### Region registry lemmas
-/

theorem get_regions_cons (k : String) (rs : List Region)
    (rest : List (String × List Region)) (key : String) :
    get_regions ((k, rs) :: rest) key =
      if k = key then rs else get_regions rest key := by
  by_cases h : k = key
  · simp [get_regions, List.find?, h]
  · simp [get_regions, List.find?, h, show (k == key) = false by simpa using h]

theorem erase_regions_cons (k : String) (rs : List Region)
    (rest : List (String × List Region)) (key : String) :
    erase_regions ((k, rs) :: rest) key =
      if k = key then erase_regions rest key
      else (k, rs) :: erase_regions rest key := by
  by_cases h : k = key <;> simp [erase_regions, List.filter_cons, h]

theorem get_regions_erase_self (regions : List (String × List Region))
    (key : String) :
    get_regions (erase_regions regions key) key = [] := by
  induction regions with
  | nil => rfl
  | cons p rest ih =>
    rcases p with ⟨k, rs⟩
    rw [erase_regions_cons]
    by_cases h : k = key
    · simpa [h] using ih
    · rw [if_neg h, get_regions_cons, if_neg h]
      exact ih

theorem get_regions_erase_ne (regions : List (String × List Region))
    (key key' : String) (h : key' ≠ key) :
    get_regions (erase_regions regions key) key' = get_regions regions key' := by
  induction regions with
  | nil => rfl
  | cons p rest ih =>
    rcases p with ⟨k, rs⟩
    rw [erase_regions_cons]
    by_cases hk : k = key
    · rw [if_pos hk, get_regions_cons, if_neg (by rw [hk]; exact fun hc => h hc.symm)]
      exact ih
    · rw [if_neg hk, get_regions_cons, get_regions_cons]
      by_cases hk2 : k = key'
      · rw [if_pos hk2, if_pos hk2]
      · rw [if_neg hk2, if_neg hk2]
        exact ih

theorem get_regions_add_self (regions : List (String × List Region))
    (key : String) (rgns : List Region) :
    get_regions (add_regions regions key rgns) key = rgns := by
  rw [add_regions, get_regions_cons, if_pos rfl]

theorem get_regions_add_ne (regions : List (String × List Region))
    (key key' : String) (rgns : List Region) (h : key' ≠ key) :
    get_regions (add_regions regions key rgns) key' = get_regions regions key' := by
  rw [add_regions, get_regions_cons, if_neg (fun hc => h hc.symm)]
  exact get_regions_erase_ne regions key key' h

theorem erase_regions_idem (regions : List (String × List Region))
    (key : String) :
    erase_regions (erase_regions regions key) key = erase_regions regions key := by
  induction regions with
  | nil => rfl
  | cons p rest ih =>
    rcases p with ⟨k, rs⟩
    rw [erase_regions_cons]
    by_cases h : k = key
    · rw [if_pos h]; exact ih
    · rw [if_neg h, erase_regions_cons, if_neg h, ih]

/-!
### Specification equations for the two commands
-/

theorem push_eq (vw : ViewState) (r : Region) (rest : List Region)
    (hsel : vw.sel = r :: rest) :
    MarkerStackPushCommand.run vw = some { vw with
      stack_setting := some ((vw.stack_setting.getD []) ++
        [⟨vw.viewport, icon_key_of (vw.stack_setting.getD []).length⟩]),
      regions := add_regions vw.regions
        (icon_key_of (vw.stack_setting.getD []).length) [⟨r.b, r.b⟩] } := by
  simp [MarkerStackPushCommand.run, hsel]

theorem push_none (vw : ViewState) (hsel : vw.sel = []) :
    MarkerStackPushCommand.run vw = none := by
  simp [MarkerStackPushCommand.run, hsel]

theorem pop_absent (vw : ViewState) (hss : vw.stack_setting = none) :
    MarkerStackPopCommand.run vw =
      some { vw with regions := erase_regions vw.regions rgn_key_pref } := by
  simp [MarkerStackPopCommand.run, hss]

theorem pop_empty (vw : ViewState) (hss : vw.stack_setting = some []) :
    MarkerStackPopCommand.run vw = none := by
  simp [MarkerStackPopCommand.run, hss]

theorem pop_spec (vw vw' : ViewState) (l : List MarkerStackMarker)
    (m : MarkerStackMarker) (hss : vw.stack_setting = some l)
    (hl : l.getLast? = some m)
    (hr : MarkerStackPopCommand.run vw = some vw') :
    vw'.stack_setting = (if l.dropLast.length = 0 then none
      else some l.dropLast) ∧
    vw'.viewport = m.vp ∧
    vw'.regions = erase_regions vw.regions m.id ∧
    ((get_regions vw.regions m.id = [] ∧ vw'.sel = vw.sel) ∨
     (∃ rgn rs, get_regions vw.regions m.id = rgn :: rs ∧ vw'.sel = [rgn])) := by
  simp only [MarkerStackPopCommand.run, hss, hl] at hr
  cases hrg : get_regions vw.regions m.id with
  | nil =>
    simp only [hrg] at hr
    cases hr
    refine ⟨rfl, rfl, rfl, Or.inl ⟨rfl, rfl⟩⟩
  | cons rgn rs =>
    simp only [hrg] at hr
    cases hr
    exact ⟨rfl, rfl, rfl, Or.inr ⟨rgn, rs, rfl, rfl⟩⟩

theorem pop_total (vw : ViewState) (l : List MarkerStackMarker)
    (m : MarkerStackMarker) (hss : vw.stack_setting = some l)
    (hl : l.getLast? = some m) :
    ∃ vw', MarkerStackPopCommand.run vw = some vw' := by
  simp only [MarkerStackPopCommand.run, hss, hl]
  cases get_regions vw.regions m.id <;> exact ⟨_, rfl⟩

/-!
### Reachable states and the stack-shape invariant
-/

theorem stackInv_push {vw vw' : ViewState}
    (hinv : StackInv vw.stack_setting)
    (hr : MarkerStackPushCommand.run vw = some vw') :
    StackInv vw'.stack_setting := by
  cases hsel : vw.sel with
  | nil => rw [push_none vw hsel] at hr; cases hr
  | cons r rest =>
    rw [push_eq vw r rest hsel] at hr
    cases hr
    cases hss : vw.stack_setting with
    | none =>
      simp only [hss, Option.getD_none, StackInv]
      refine ⟨by simp, ?_⟩
      intro i h
      simp only [List.length_nil, List.nil_append, List.length_cons] at h
      interval_cases i
      rfl
    | some l =>
      rw [hss] at hinv
      simp only [hss, Option.getD_some, StackInv]
      refine ⟨by simp, ?_⟩
      intro i h
      by_cases hi : i < l.length
      · rw [List.get_append i hi]
        exact hinv.2 i hi
      · have hlen : (l ++ [(⟨vw.viewport, icon_key_of l.length⟩ :
            MarkerStackMarker)]).length = l.length + 1 := by simp
        have : i = l.length := by
          rw [hlen] at h; omega
        subst this
        simp

theorem stackInv_pop {vw vw' : ViewState}
    (hinv : StackInv vw.stack_setting)
    (hr : MarkerStackPopCommand.run vw = some vw') :
    StackInv vw'.stack_setting := by
  cases hss : vw.stack_setting with
  | none =>
    rw [pop_absent vw hss] at hr
    cases hr
    show StackInv vw.stack_setting
    rw [hss]
    trivial
  | some l =>
    cases hl : l.getLast? with
    | none =>
      simp only [MarkerStackPopCommand.run, hss, hl] at hr
      exact Option.noConfusion hr
    | some m =>
      obtain ⟨h1, _, _, _⟩ := pop_spec vw vw' l m hss hl hr
      rw [hss] at hinv
      rw [h1]
      by_cases hz : l.dropLast.length = 0
      · simp [hz, StackInv]
      · simp only [hz, if_false, StackInv]
        refine ⟨by intro hc; rw [hc] at hz; simp at hz, ?_⟩
        intro i h
        have hi : i < l.length := by
          have := List.length_dropLast l
          omega
        have := hinv.2 i hi
        rw [← this]
        congr 1
        apply List.get_dropLast

theorem stackInv_reachable {vw : ViewState} (h : Reachable vw) :
    StackInv vw.stack_setting := by
  induction h with
  | init h0 => rw [h0]; trivial
  | step _ hstep ih =>
    cases hstep with
    | push hr => exact stackInv_push ih hr
    | pop hr => exact stackInv_pop ih hr
    | host heq => rw [heq]; exact ih

/-!
### Scripted runs: N pushes followed by N pops

`navigate` models user navigation between commands: it sets the selection to
one region and the viewport to one vector.  It is not a buffer edit, so the
registered regions are unchanged.
-/

theorem markersOf_length (script : List (Region × (Int × Int))) :
    ∀ base : Nat, (markersOf base script).length = script.length := by
  induction script with
  | nil => intro base; rfl
  | cons p rest ih =>
    intro base
    rcases p with ⟨r, vp⟩
    simp [markersOf, ih]

theorem markersOf_append (xs ys : List (Region × (Int × Int))) :
    ∀ base : Nat, markersOf base (xs ++ ys) =
      markersOf base xs ++ markersOf (base + xs.length) ys := by
  induction xs with
  | nil => intro base; simp [markersOf]
  | cons p rest ih =>
    intro base
    rcases p with ⟨r, vp⟩
    simp only [List.cons_append, markersOf, List.length_cons]
    rw [show (rest.append ys : List (Region × (Int × Int))) = rest ++ ys
      from rfl, ih (base + 1),
      show base + 1 + rest.length = base + (rest.length + 1) by omega]

theorem popReady_load {script : List (Region × (Int × Int))}
    {vw : ViewState} (hpr : PopReady script vw) :
    vw.stack_setting.getD [] = markersOf 0 script := by
  by_cases h : script = []
  · subst h; rw [hpr.1, if_pos rfl]; rfl
  · rw [hpr.1, if_neg h]; rfl

theorem pushStep {script : List (Region × (Int × Int))} {vw : ViewState}
    (hpr : PopReady script vw) (r : Region) (vp : Int × Int) :
    ∃ vw', MarkerStackPushCommand.run (navigate vw r vp) = some vw' ∧
      PopReady (script ++ [(r, vp)]) vw' := by
  have hload : (navigate vw r vp).stack_setting.getD [] = markersOf 0 script :=
    popReady_load hpr
  have hlen : ((navigate vw r vp).stack_setting.getD []).length =
      script.length := by rw [hload, markersOf_length]
  rw [push_eq (navigate vw r vp) r [] rfl]
  refine ⟨_, rfl, ?_, ?_⟩
  · show (some _ : Option (List MarkerStackMarker)) = _
    rw [if_neg (by simp), hload, markersOf_length script 0,
      markersOf_append script [(r, vp)] 0, Nat.zero_add]
    rfl
  · intro j hj
    show get_regions (add_regions vw.regions
      (icon_key_of ((navigate vw r vp).stack_setting.getD []).length)
      [⟨r.b, r.b⟩]) (icon_key_of j) = _
    rw [hlen]
    simp only [List.length_append, List.length_cons, List.length_nil] at hj
    by_cases hjl : j = script.length
    · subst hjl
      rw [get_regions_add_self]
      simp
    · have hjlt : j < script.length := by omega
      rw [get_regions_add_ne _ _ _ _
        (fun hc => hjl (icon_key_of_inj hc))]
      rw [hpr.2 j hjlt]
      simp [List.get_eq_getElem, List.getElem_append_left hjlt]

theorem popStep {script : List (Region × (Int × Int))} {r : Region}
    {vp : Int × Int} {vw : ViewState}
    (hpr : PopReady (script ++ [(r, vp)]) vw) :
    ∃ vw', MarkerStackPopCommand.run vw = some vw' ∧
      vw'.sel = [⟨r.b, r.b⟩] ∧ vw'.viewport = vp ∧ PopReady script vw' := by
  have hss : vw.stack_setting =
      some (markersOf 0 script ++ [⟨vp, icon_key_of script.length⟩]) := by
    rw [hpr.1, if_neg (by simp),
      markersOf_append script [(r, vp)] 0, Nat.zero_add]
    rfl
  have hl : (markersOf 0 script ++
      [(⟨vp, icon_key_of script.length⟩ : MarkerStackMarker)]).getLast? =
      some ⟨vp, icon_key_of script.length⟩ := by
    simp
  obtain ⟨vw', hrun⟩ := pop_total vw _ _ hss hl
  obtain ⟨h1, h2, h3, h4⟩ := pop_spec vw vw' _ _ hss hl hrun
  have h1a : vw'.stack_setting =
      (if (markersOf 0 script ++
        [(⟨vp, icon_key_of script.length⟩ : MarkerStackMarker)]).dropLast.length
        = 0 then none
       else some (markersOf 0 script ++
        [(⟨vp, icon_key_of script.length⟩ :
          MarkerStackMarker)]).dropLast) := h1
  have h2a : vw'.viewport = vp := h2
  have h3a : vw'.regions =
      erase_regions vw.regions (icon_key_of script.length) := h3
  have h4a : (get_regions vw.regions (icon_key_of script.length) = [] ∧
      vw'.sel = vw.sel) ∨
      (∃ rgn rs, get_regions vw.regions (icon_key_of script.length) =
        rgn :: rs ∧ vw'.sel = [rgn]) := h4
  have htop : get_regions vw.regions (icon_key_of script.length) =
      [⟨r.b, r.b⟩] := by
    have h5 := hpr.2 script.length (by simp)
    simpa using h5
  have hdrop : (markersOf 0 script ++
      [(⟨vp, icon_key_of script.length⟩ : MarkerStackMarker)]).dropLast =
      markersOf 0 script := by simp
  refine ⟨vw', hrun, ?_, h2a, ?_⟩
  · rcases h4a with ⟨hempty, _⟩ | ⟨rgn, rs, hcons, hsel⟩
    · rw [htop] at hempty; cases hempty
    · rw [htop] at hcons
      cases hcons
      exact hsel
  · constructor
    · rw [h1a, hdrop, markersOf_length script 0]
      by_cases hnil : script = []
      · subst hnil; simp
      · rw [if_neg (by simpa [List.length_eq_zero] using hnil), if_neg hnil]
    · intro j hj
      rw [h3a]
      have hne : icon_key_of j ≠ icon_key_of script.length :=
        fun hc => absurd (icon_key_of_inj hc) (by omega)
      rw [get_regions_erase_ne _ _ _ hne]
      have hj2 : j < (script ++ [(r, vp)]).length := by
        simp only [List.length_append, List.length_cons, List.length_nil]
        omega
      have h6 := hpr.2 j hj2
      rw [h6]
      simp [List.get_eq_getElem, List.getElem_append_left hj]

theorem pushSeq_append (xs ys : List (Region × (Int × Int))) :
    ∀ vw : ViewState, pushSeq vw (xs ++ ys) =
      (pushSeq vw xs).bind (fun w => pushSeq w ys) := by
  induction xs with
  | nil => intro vw; rfl
  | cons p rest ih =>
    intro vw
    rcases p with ⟨r, vp⟩
    simp only [List.cons_append, pushSeq]
    cases MarkerStackPushCommand.run (navigate vw r vp) with
    | none => rfl
    | some w => exact ih w

theorem pushSeq_popReady (script : List (Region × (Int × Int)))
    (vw : ViewState) (h0 : vw.stack_setting = none) :
    ∃ vw', pushSeq vw script = some vw' ∧ PopReady script vw' := by
  induction script using List.reverseRecOn with
  | nil =>
    refine ⟨vw, rfl, ?_, ?_⟩
    · rw [if_pos rfl]; exact h0
    · intro j hj; cases hj
  | append_singleton xs x ih =>
    obtain ⟨vw1, hrun1, hpr1⟩ := ih
    rcases x with ⟨r, vp⟩
    obtain ⟨vw2, hrun2, hpr2⟩ := pushStep hpr1 r vp
    refine ⟨vw2, ?_, hpr2⟩
    rw [pushSeq_append xs [(r, vp)] vw, hrun1]
    show (MarkerStackPushCommand.run (navigate vw1 r vp)).bind
      (fun w => pushSeq w []) = some vw2
    rw [hrun2]
    rfl

theorem get_append_left_idx {α : Type} (xs ys : List α) (i j : Nat)
    (hij : i = j) (h : i < (xs ++ ys).length) (hj : j < xs.length) :
    (xs ++ ys).get ⟨i, h⟩ = xs.get ⟨j, hj⟩ := by
  subst hij
  simp only [List.get_eq_getElem]
  exact List.getElem_append_left hj

theorem popPhase : ∀ (k : Nat) (script : List (Region × (Int × Int)))
    (vw : ViewState), PopReady script vw → k + 1 ≤ script.length →
    ∃ vw', popIter (k + 1) vw = some vw' ∧
      (∀ h : script.length - (k + 1) < script.length,
        vw'.sel = [⟨(script.get ⟨script.length - (k + 1), h⟩).1.b,
            (script.get ⟨script.length - (k + 1), h⟩).1.b⟩] ∧
        vw'.viewport = (script.get ⟨script.length - (k + 1), h⟩).2) ∧
      PopReady (script.take (script.length - (k + 1))) vw' := by
  intro k
  induction k with
  | zero =>
    intro script vw hpr hk
    rcases List.eq_nil_or_concat script with hnil | ⟨xs, x, hcat⟩
    · subst hnil; exact absurd hk (by decide)
    · rw [List.concat_eq_append] at hcat
      subst hcat
      rcases x with ⟨r, vp⟩
      obtain ⟨vw', hrun, hsel, hvp, hpr2⟩ := popStep hpr
      have hlen : (xs ++ [(r, vp)]).length = xs.length + 1 := by simp
      have hidx : (xs ++ [(r, vp)]).length - 1 = xs.length := by omega
      refine ⟨vw', ?_, ?_, ?_⟩
      · simp [popIter, hrun]
      · intro h
        constructor
        · rw [hsel]
          have : ((xs ++ [(r, vp)]).get ⟨(xs ++ [(r, vp)]).length - 1, h⟩)
              = (r, vp) := by
            simp [List.get_eq_getElem, hidx]
          rw [this]
        · rw [hvp]
          have : ((xs ++ [(r, vp)]).get ⟨(xs ++ [(r, vp)]).length - 1, h⟩)
              = (r, vp) := by
            simp [List.get_eq_getElem, hidx]
          rw [this]
      · rw [hidx, List.take_left]
        exact hpr2
  | succ k ih =>
    intro script vw hpr hk
    rcases List.eq_nil_or_concat script with hnil | ⟨xs, x, hcat⟩
    · subst hnil
      rw [List.length_nil] at hk
      omega
    · rw [List.concat_eq_append] at hcat
      subst hcat
      rcases x with ⟨r, vp⟩
      obtain ⟨vw1, hrun, _, _, hpr1⟩ := popStep hpr
      have hlen : (xs ++ [(r, vp)]).length = xs.length + 1 := by simp
      have hk1 : k + 1 ≤ xs.length := by omega
      obtain ⟨vw2, hrun2, hsv, hpr2⟩ := ih xs vw1 hpr1 hk1
      have hidx : (xs ++ [(r, vp)]).length - (k + 1 + 1) =
          xs.length - (k + 1) := by omega
      refine ⟨vw2, ?_, ?_, ?_⟩
      · show (MarkerStackPopCommand.run vw).bind (popIter (k + 1)) = some vw2
        rw [hrun]
        simpa using hrun2
      · intro h
        have hxs : xs.length - (k + 1) < xs.length := by omega
        obtain ⟨hs1, hs2⟩ := hsv hxs
        have hget : ((xs ++ [(r, vp)]).get
            ⟨(xs ++ [(r, vp)]).length - (k + 1 + 1), h⟩) =
            xs.get ⟨xs.length - (k + 1), hxs⟩ :=
          get_append_left_idx xs [(r, vp)] _ _ hidx h hxs
        rw [hget]
        exact ⟨hs1, hs2⟩
      · rw [hidx, List.take_append_of_le_length (by omega)]
        exact hpr2

/-!
### Host edit model
-/

theorem get_regions_applyEdit (f : Int → Int)
    (regions : List (String × List Region)) (key : String) :
    get_regions (applyEdit f regions) key =
      (get_regions regions key).map (fun rg => (⟨f rg.a, f rg.b⟩ : Region)) := by
  induction regions with
  | nil => rfl
  | cons p rest ih =>
    rcases p with ⟨k, rs⟩
    show get_regions ((k, rs.map _) :: applyEdit f rest) key = _
    rw [get_regions_cons, get_regions_cons]
    by_cases h : k = key
    · rw [if_pos h, if_pos h]
    · rw [if_neg h, if_neg h]
      exact ih

/-!
### Claims
-/

/-- C1 (LIFO law, confirmed): starting from a view with no persisted stack,
after the `script.length` scripted pushes and then `j + 1` pops (no
intervening edits), the caret is a single zero-width region at the insertion
point captured at push number `script.length - (j + 1)` — the matching push
in reverse order — and the viewport equals the offset captured there. -/
theorem c1_lifo_law (vw0 : ViewState) (script : List (Region × (Int × Int)))
    (j : Nat) (h0 : vw0.stack_setting = none) (hj : j < script.length) :
    ∃ vw', (pushSeq vw0 script).bind (popIter (j + 1)) = some vw' ∧
      vw'.sel = [⟨(script.get ⟨script.length - (j + 1), by omega⟩).1.b,
        (script.get ⟨script.length - (j + 1), by omega⟩).1.b⟩] ∧
      vw'.viewport = (script.get ⟨script.length - (j + 1), by omega⟩).2 := by
  obtain ⟨vw1, hpush, hpr⟩ := pushSeq_popReady script vw0 h0
  obtain ⟨vw2, hpop, hsv, _⟩ := popPhase j script vw1 hpr (by omega)
  have hlt : script.length - (j + 1) < script.length := by omega
  obtain ⟨hs1, hs2⟩ := hsv hlt
  refine ⟨vw2, ?_, hs1, hs2⟩
  rw [hpush]
  exact hpop

theorem c1_lifo_law_witness :
    ∃ vw', (pushSeq ⟨[⟨0, 0⟩], (0, 0), none, []⟩
        [(⟨10, 10⟩, (0, 0)), (⟨50, 50⟩, (0, 200))]).bind (popIter 1) =
          some vw' ∧
      vw'.sel = [⟨50, 50⟩] ∧ vw'.viewport = (0, 200) :=
  c1_lifo_law ⟨[⟨0, 0⟩], (0, 0), none, []⟩
    [(⟨10, 10⟩, (0, 0)), (⟨50, 50⟩, (0, 200))] 0 rfl (by decide)

/-- C2 (edit-drift correctness, confirmed).  First conjunct: whenever the
anchor of the top marker resolves to a region in the current registry, pop
sets the caret to exactly that resolved region — the value restored is read
from the registry at pop time, never from the marker (which stores no caret
at all).  Second conjunct: the spec's drift scenario — push at caret `r0.b`,
let an edit move every anchor through `f`, pop: the caret lands on the
drifted point `f r0.b`, and when the edit actually moved the anchor it does
not land on the push-time point `r0.b`. -/
theorem c2_edit_drift :
    (∀ (vw : ViewState) (ms : List MarkerStackMarker)
        (m : MarkerStackMarker) (rgn : Region) (rs : List Region),
      vw.stack_setting = some (ms ++ [m]) →
      get_regions vw.regions m.id = rgn :: rs →
      ∃ vw', MarkerStackPopCommand.run vw = some vw' ∧ vw'.sel = [rgn]) ∧
    (∀ (vw0 : ViewState) (r0 : Region) (rest : List Region) (f : Int → Int)
        (vw1 vwE : ViewState),
      vw0.stack_setting = none → vw0.sel = r0 :: rest →
      MarkerStackPushCommand.run vw0 = some vw1 →
      vwE.stack_setting = vw1.stack_setting →
      vwE.regions = applyEdit f vw1.regions →
      ∃ vw2, MarkerStackPopCommand.run vwE = some vw2 ∧
        vw2.sel = [⟨f r0.b, f r0.b⟩] ∧
        (f r0.b ≠ r0.b → vw2.sel ≠ [⟨r0.b, r0.b⟩])) := by
  have hgen : ∀ (vw : ViewState) (ms : List MarkerStackMarker)
      (m : MarkerStackMarker) (rgn : Region) (rs : List Region),
      vw.stack_setting = some (ms ++ [m]) →
      get_regions vw.regions m.id = rgn :: rs →
      ∃ vw', MarkerStackPopCommand.run vw = some vw' ∧ vw'.sel = [rgn] := by
    intro vw ms m rgn rs hss hrg
    have hl : (ms ++ [m]).getLast? = some m := by simp
    obtain ⟨vw', hrun⟩ := pop_total vw _ _ hss hl
    obtain ⟨_, _, _, h4⟩ := pop_spec vw vw' _ _ hss hl hrun
    rcases h4 with ⟨hempty, _⟩ | ⟨rgn2, rs2, hcons, hsel⟩
    · rw [hrg] at hempty; cases hempty
    · rw [hrg] at hcons
      cases hcons
      exact ⟨vw', hrun, hsel⟩
  refine ⟨hgen, ?_⟩
  intro vw0 r0 rest f vw1 vwE h0 hsel hpush hEs hEr
  rw [push_eq vw0 r0 rest hsel, h0] at hpush
  cases hpush
  have hss : vwE.stack_setting =
      some ([] ++ [(⟨vw0.viewport, icon_key_of 0⟩ : MarkerStackMarker)]) := by
    rw [hEs]; rfl
  have hrg : get_regions vwE.regions
      ((⟨vw0.viewport, icon_key_of 0⟩ : MarkerStackMarker)).id =
      (⟨f r0.b, f r0.b⟩ : Region) :: [] := by
    show get_regions vwE.regions (icon_key_of 0) = _
    rw [hEr]
    show get_regions (applyEdit f
      (add_regions vw0.regions (icon_key_of 0) [⟨r0.b, r0.b⟩]))
      (icon_key_of 0) = _
    rw [get_regions_applyEdit, get_regions_add_self]
    rfl
  obtain ⟨vw2, hrun, hsel2⟩ := hgen vwE [] _ _ _ hss hrg
  refine ⟨vw2, hrun, hsel2, ?_⟩
  intro hne hc
  rw [hsel2] at hc
  have : f r0.b = r0.b := by
    have := List.head_eq_of_cons_eq hc
    simpa [Region.mk.injEq] using this
  exact hne this

theorem c2_edit_drift_witness :
    (∃ vw', MarkerStackPopCommand.run
        ⟨[⟨0, 0⟩], (9, 9), some [⟨(1, 2), "_marker_stack_icon_0"⟩],
          [("_marker_stack_icon_0", [⟨7, 7⟩])]⟩ = some vw' ∧
      vw'.sel = [⟨7, 7⟩]) ∧
    (∃ vw2, MarkerStackPopCommand.run
        ⟨[⟨0, 0⟩], (9, 9), some [⟨(3, 4), "_marker_stack_icon_0"⟩],
          applyEdit (fun pt => pt + 5)
            (add_regions [] "_marker_stack_icon_0" [⟨10, 10⟩])⟩ = some vw2 ∧
      vw2.sel = [⟨(fun pt : Int => pt + 5) 10, (fun pt : Int => pt + 5) 10⟩] ∧
      ((fun pt : Int => pt + 5) 10 ≠ 10 →
        vw2.sel ≠ [⟨(10 : Int), (10 : Int)⟩])) := by
  constructor
  · exact c2_edit_drift.1
      ⟨[⟨0, 0⟩], (9, 9), some [⟨(1, 2), "_marker_stack_icon_0"⟩],
        [("_marker_stack_icon_0", [⟨7, 7⟩])]⟩
      [] ⟨(1, 2), "_marker_stack_icon_0"⟩ ⟨7, 7⟩ [] rfl rfl
  · exact c2_edit_drift.2
      ⟨[⟨10, 10⟩], (3, 4), none, []⟩ ⟨10, 10⟩ [] (fun pt => pt + 5)
      ⟨[⟨10, 10⟩], (3, 4), some [⟨(3, 4), "_marker_stack_icon_0"⟩],
        add_regions [] "_marker_stack_icon_0" [⟨10, 10⟩]⟩
      ⟨[⟨0, 0⟩], (9, 9), some [⟨(3, 4), "_marker_stack_icon_0"⟩],
        applyEdit (fun pt => pt + 5)
          (add_regions [] "_marker_stack_icon_0" [⟨10, 10⟩])⟩
      rfl rfl (by decide) rfl rfl

/-- C3 (stack-absence invariant, confirmed).  First conjunct: popping the
last remaining marker erases the persisted key (the value becomes absent,
never an empty sequence).  Second conjunct: pushing onto a view whose key is
absent makes the key present with a one-element marker list. -/
theorem c3_stack_absence :
    (∀ (vw : ViewState) (m : MarkerStackMarker),
      vw.stack_setting = some [m] →
      ∃ vw', MarkerStackPopCommand.run vw = some vw' ∧
        vw'.stack_setting = none) ∧
    (∀ vw : ViewState, vw.stack_setting = none → vw.sel ≠ [] →
      ∃ vw' l1, MarkerStackPushCommand.run vw = some vw' ∧
        vw'.stack_setting = some l1 ∧ l1.length = 1) := by
  constructor
  · intro vw m hss
    have hss2 : vw.stack_setting = some ([] ++ [m]) := hss
    have hl : (([] : List MarkerStackMarker) ++ [m]).getLast? = some m := by
      simp
    obtain ⟨vw', hrun⟩ := pop_total vw _ _ hss2 hl
    obtain ⟨h1, _, _, _⟩ := pop_spec vw vw' _ _ hss2 hl hrun
    refine ⟨vw', hrun, ?_⟩
    rw [h1]
    rfl
  · intro vw hss hsel
    cases hs : vw.sel with
    | nil => exact absurd hs hsel
    | cons r rest =>
      rw [push_eq vw r rest hs, hss]
      exact ⟨_, [⟨vw.viewport, icon_key_of 0⟩], rfl, rfl, rfl⟩

theorem c3_stack_absence_witness :
    (∃ vw', MarkerStackPopCommand.run
        ⟨[⟨0, 0⟩], (0, 0), some [⟨(5, 6), "_marker_stack_icon_0"⟩],
          [("_marker_stack_icon_0", [⟨4, 4⟩])]⟩ = some vw' ∧
      vw'.stack_setting = none) ∧
    (∃ vw' l1, MarkerStackPushCommand.run
        ⟨[⟨2, 3⟩], (0, 0), none, []⟩ = some vw' ∧
      vw'.stack_setting = some l1 ∧ l1.length = 1) :=
  ⟨c3_stack_absence.1 ⟨[⟨0, 0⟩], (0, 0),
      some [⟨(5, 6), "_marker_stack_icon_0"⟩],
      [("_marker_stack_icon_0", [⟨4, 4⟩])]⟩
    ⟨(5, 6), "_marker_stack_icon_0"⟩ rfl,
   c3_stack_absence.2 ⟨[⟨2, 3⟩], (0, 0), none, []⟩ rfl (by decide)⟩

/-- C7 (defensive pop on desync, confirmed): when the persisted stack is
non-empty but the registry holds no region under the top marker's key, pop
still succeeds (no exception), leaves the caret/selection untouched, still
restores the viewport to the marker's stored offset, shortens and persists
the stack correctly (erasing the key when the last marker was popped), and
removes the marker's key from the registry. -/
theorem c7_desync_pop (vw : ViewState) (l : List MarkerStackMarker)
    (m : MarkerStackMarker) (hss : vw.stack_setting = some (l ++ [m]))
    (hrg : get_regions vw.regions m.id = []) :
    ∃ vw', MarkerStackPopCommand.run vw = some vw' ∧
      vw'.sel = vw.sel ∧
      vw'.viewport = m.vp ∧
      vw'.stack_setting = (if l = [] then none else some l) ∧
      vw'.regions = erase_regions vw.regions m.id := by
  have hl : (l ++ [m]).getLast? = some m := by simp
  obtain ⟨vw', hrun⟩ := pop_total vw _ _ hss hl
  obtain ⟨h1, h2, h3, h4⟩ := pop_spec vw vw' _ _ hss hl hrun
  refine ⟨vw', hrun, ?_, h2, ?_, h3⟩
  · rcases h4 with ⟨_, hsel⟩ | ⟨rgn, rs, hcons, _⟩
    · exact hsel
    · rw [hrg] at hcons; cases hcons
  · rw [h1, List.dropLast_concat]
    by_cases hnil : l = []
    · subst hnil; simp
    · rw [if_neg (by simpa [List.length_eq_zero] using hnil), if_neg hnil]

theorem c7_desync_pop_witness :
    ∃ vw', MarkerStackPopCommand.run
        ⟨[⟨1, 1⟩], (0, 0), some [⟨(8, 9), "_marker_stack_icon_0"⟩], []⟩ =
        some vw' ∧
      vw'.sel = [⟨1, 1⟩] ∧
      vw'.viewport = (8, 9) ∧
      vw'.stack_setting = none ∧
      vw'.regions = erase_regions [] "_marker_stack_icon_0" :=
  c7_desync_pop ⟨[⟨1, 1⟩], (0, 0), some [⟨(8, 9), "_marker_stack_icon_0"⟩], []⟩
    [] ⟨(8, 9), "_marker_stack_icon_0"⟩ rfl rfl

/-- C9 counterexample: the claim says push completes without error for every
selection/caret configuration a valid view may have.  On a view whose
selection list is empty (`vw.sel()` can be empty, e.g. after a plugin calls
`sel().clear()`), `vw.sel()[0]` raises `IndexError`, modelled as `none`:
push does not complete. -/
theorem c9_counterexample :
    MarkerStackPushCommand.run ⟨[], (0, 0), none, []⟩ = none := by decide

/-- C9 (amended): push succeeds for every view whose selection contains at
least one region; the empty-selection configuration is the only failing
one. -/
theorem c9_push_succeeds (vw : ViewState) (hsel : vw.sel ≠ []) :
    ∃ vw', MarkerStackPushCommand.run vw = some vw' := by
  cases hs : vw.sel with
  | nil => exact absurd hs hsel
  | cons r rest => rw [push_eq vw r rest hs]; exact ⟨_, rfl⟩

theorem c9_push_succeeds_witness :
    ∃ vw', MarkerStackPushCommand.run ⟨[⟨4, 7⟩], (1, 2), none, []⟩ =
      some vw' :=
  c9_push_succeeds ⟨[⟨4, 7⟩], (1, 2), none, []⟩ (by decide)

/-- C5 counterexample: the claim covers views whose persisted stack is
"absent or empty".  On a view where the key is present but holds the empty
sequence, the code takes the non-`None` branch and `mstack.pop()` raises
`IndexError` (modelled as `none`): pop errors rather than being a no-op. -/
theorem c5_counterexample :
    MarkerStackPopCommand.run ⟨[⟨0, 0⟩], (0, 0), some [], []⟩ = none := by
  decide

/-- C5 (amended): on every view whose persisted stack key is absent, pop
raises no error, leaves the persisted stack absent and the caret and
viewport untouched, and a second pop in a row is also error-free and changes
nothing at all. -/
theorem c5_pop_no_stack (vw : ViewState) (hss : vw.stack_setting = none) :
    ∃ vw', MarkerStackPopCommand.run vw = some vw' ∧
      vw'.stack_setting = none ∧ vw'.sel = vw.sel ∧
      vw'.viewport = vw.viewport ∧
      MarkerStackPopCommand.run vw' = some vw' := by
  rcases vw with ⟨s, v, st, rg⟩
  obtain rfl : st = none := hss
  refine ⟨⟨s, v, none, erase_regions rg rgn_key_pref⟩, ?_, rfl, rfl, rfl, ?_⟩
  · exact pop_absent _ rfl
  · have h2 := pop_absent
      ⟨s, v, none, erase_regions rg rgn_key_pref⟩ rfl
    rw [show erase_regions
        ((⟨s, v, none, erase_regions rg rgn_key_pref⟩ : ViewState)).regions
        rgn_key_pref = erase_regions rg rgn_key_pref
      from erase_regions_idem rg rgn_key_pref] at h2
    exact h2

theorem c5_pop_no_stack_witness :
    ∃ vw', MarkerStackPopCommand.run
        ⟨[⟨1, 2⟩], (3, 4), none, [("_marker_stack_icon_", [⟨9, 9⟩])]⟩ =
        some vw' ∧
      vw'.stack_setting = none ∧ vw'.sel = [⟨1, 2⟩] ∧
      vw'.viewport = (3, 4) ∧
      MarkerStackPopCommand.run vw' = some vw' :=
  c5_pop_no_stack ⟨[⟨1, 2⟩], (3, 4), none,
    [("_marker_stack_icon_", [⟨9, 9⟩])]⟩ rfl

/-- C8 counterexample: the claim says an absent-stack pop leaves no
decoration whose key belongs to the prefix naming scheme.  The code calls
`erase_regions(_rgn_key_prefix)` with the literal prefix string only, so a
stray decoration under the scheme key `icon_key_of 0 =
"_marker_stack_icon_0"` survives the pop unchanged. -/
theorem c8_counterexample :
    MarkerStackPopCommand.run
      ⟨[⟨0, 0⟩], (0, 0), none, [("_marker_stack_icon_0", [⟨5, 5⟩])]⟩ =
      some ⟨[⟨0, 0⟩], (0, 0), none, [("_marker_stack_icon_0", [⟨5, 5⟩])]⟩ ∧
    "_marker_stack_icon_0" = icon_key_of 0 ∧
    get_regions [("_marker_stack_icon_0", [⟨5, 5⟩])] "_marker_stack_icon_0" =
      [⟨5, 5⟩] := by decide

/-- C8 (amended): a pop on a view whose persisted stack is absent raises no
error and erases exactly the decorations registered under the literal
prefix key `_rgn_key_prefix` itself; decorations under any other key — in
particular the per-marker keys `prefix + i` — are left untouched. -/
theorem c8_absent_pop_cleanup (vw : ViewState)
    (hss : vw.stack_setting = none) :
    ∃ vw', MarkerStackPopCommand.run vw = some vw' ∧
      vw'.regions = erase_regions vw.regions rgn_key_pref ∧
      get_regions vw'.regions rgn_key_pref = [] ∧
      ∀ key, key ≠ rgn_key_pref →
        get_regions vw'.regions key = get_regions vw.regions key := by
  refine ⟨_, pop_absent vw hss, rfl, ?_, ?_⟩
  · show get_regions (erase_regions vw.regions rgn_key_pref)
      rgn_key_pref = []
    exact get_regions_erase_self _ _
  · intro key hk
    show get_regions (erase_regions vw.regions rgn_key_pref) key = _
    exact get_regions_erase_ne _ _ _ hk

theorem c8_absent_pop_cleanup_witness :
    ∃ vw', MarkerStackPopCommand.run
        ⟨[⟨0, 0⟩], (0, 0), none,
          [("_marker_stack_icon_", [⟨3, 3⟩]),
           ("_marker_stack_icon_0", [⟨5, 5⟩])]⟩ = some vw' ∧
      vw'.regions = erase_regions
        [("_marker_stack_icon_", [⟨3, 3⟩]),
         ("_marker_stack_icon_0", [⟨5, 5⟩])] rgn_key_pref ∧
      get_regions vw'.regions rgn_key_pref = [] ∧
      ∀ key, key ≠ rgn_key_pref →
        get_regions vw'.regions key = get_regions
          [("_marker_stack_icon_", [⟨3, 3⟩]),
           ("_marker_stack_icon_0", [⟨5, 5⟩])] key :=
  c8_absent_pop_cleanup ⟨[⟨0, 0⟩], (0, 0), none,
    [("_marker_stack_icon_", [⟨3, 3⟩]),
     ("_marker_stack_icon_0", [⟨5, 5⟩])]⟩ rfl

/-- C4 counterexample: the claim says no push ever produces an anchor key an
earlier push produced.  First conjunct: after push–push from the empty
state, the second push has produced a marker keyed
`"_marker_stack_icon_1"`.  Second conjunct: after push–push–pop–push, the
fourth push has again produced a marker keyed `"_marker_stack_icon_1"` —
the key freed by the pop is reallocated, because the index is recomputed as
`len(stack)` before each append. -/
theorem c4_counterexample :
    ((MarkerStackPushCommand.run ⟨[⟨10, 10⟩], (0, 0), none, []⟩).bind
      MarkerStackPushCommand.run) =
      some ⟨[⟨10, 10⟩], (0, 0),
        some [⟨(0, 0), "_marker_stack_icon_0"⟩,
          ⟨(0, 0), "_marker_stack_icon_1"⟩],
        [("_marker_stack_icon_1", [⟨10, 10⟩]),
         ("_marker_stack_icon_0", [⟨10, 10⟩])]⟩ ∧
    ((MarkerStackPushCommand.run ⟨[⟨10, 10⟩], (0, 0), none, []⟩).bind
      (fun v2 => (MarkerStackPushCommand.run v2).bind
        (fun v3 => (MarkerStackPopCommand.run v3).bind
          MarkerStackPushCommand.run))) =
      some ⟨[⟨10, 10⟩], (0, 0),
        some [⟨(0, 0), "_marker_stack_icon_0"⟩,
          ⟨(0, 0), "_marker_stack_icon_1"⟩],
        [("_marker_stack_icon_1", [⟨10, 10⟩]),
         ("_marker_stack_icon_0", [⟨10, 10⟩])]⟩ := by decide

theorem stackInv_fresh {o : Option (List MarkerStackMarker)}
    (hinv : StackInv o) (m2 : MarkerStackMarker) (hm2 : m2 ∈ o.getD []) :
    m2.id ≠ icon_key_of (o.getD []).length := by
  cases o with
  | none => cases hm2
  | some l =>
    show m2.id ≠ icon_key_of l.length
    have hm2l : m2 ∈ l := hm2
    obtain ⟨i, hgi⟩ := List.mem_iff_get.mp hm2l
    have hid : m2.id = icon_key_of i.val := by
      rw [← hgi]
      exact hinv.2 i.val i.isLt
    intro hc
    rw [hid] at hc
    have hival := i.isLt
    exact absurd (icon_key_of_inj hc) (by omega)

/-- C4 (amended): every push appends a marker whose key is
`prefix + currentLength(stack)` computed on the stack state before the
append, and on every reachable state this key differs from the key of every
marker currently on the stack — but keys of previously popped markers can be
produced again by later pushes. -/
theorem c4_key_allocation (vw vw' : ViewState) (hreach : Reachable vw)
    (hrun : MarkerStackPushCommand.run vw = some vw') :
    ∃ m : MarkerStackMarker,
      vw'.stack_setting = some (vw.stack_setting.getD [] ++ [m]) ∧
      m.id = icon_key_of (vw.stack_setting.getD []).length ∧
      ∀ m2 ∈ vw.stack_setting.getD [], m2.id ≠ m.id := by
  cases hs : vw.sel with
  | nil => rw [push_none vw hs] at hrun; cases hrun
  | cons r rest =>
    rw [push_eq vw r rest hs] at hrun
    cases hrun
    refine ⟨⟨vw.viewport,
      icon_key_of (vw.stack_setting.getD []).length⟩, rfl, rfl, ?_⟩
    intro m2 hm2
    exact stackInv_fresh (stackInv_reachable hreach) m2 hm2

theorem c4_key_allocation_witness :
    ∃ m : MarkerStackMarker,
      ((⟨[⟨0, 5⟩], (0, 0), some [⟨(0, 0), "_marker_stack_icon_0"⟩],
        [("_marker_stack_icon_0", [⟨5, 5⟩])]⟩ : ViewState)).stack_setting =
        some (((⟨[⟨0, 5⟩], (0, 0), none,
          []⟩ : ViewState)).stack_setting.getD [] ++ [m]) ∧
      m.id = icon_key_of (((⟨[⟨0, 5⟩], (0, 0), none,
        []⟩ : ViewState)).stack_setting.getD []).length ∧
      ∀ m2 ∈ (((⟨[⟨0, 5⟩], (0, 0), none,
        []⟩ : ViewState)).stack_setting.getD []), m2.id ≠ m.id :=
  c4_key_allocation ⟨[⟨0, 5⟩], (0, 0), none, []⟩
    ⟨[⟨0, 5⟩], (0, 0), some [⟨(0, 0), "_marker_stack_icon_0"⟩],
      [("_marker_stack_icon_0", [⟨5, 5⟩])]⟩
    (Reachable.init rfl) (by decide)

/-- C6 (anchor exclusivity, confirmed): on every state reachable by push and
pop operations (with arbitrary host activity in between), any two distinct
positions of the persisted marker stack carry distinct anchor keys. -/
theorem c6_anchor_exclusivity (vw : ViewState)
    (l : List MarkerStackMarker) (hreach : Reachable vw)
    (hss : vw.stack_setting = some l) (i j : Nat)
    (hi : i < l.length) (hj : j < l.length) (hij : i ≠ j) :
    (l.get ⟨i, hi⟩).id ≠ (l.get ⟨j, hj⟩).id := by
  have hinv := stackInv_reachable hreach
  rw [hss] at hinv
  rw [hinv.2 i hi, hinv.2 j hj]
  exact fun hc => hij (icon_key_of_inj hc)

theorem c6_anchor_exclusivity_witness :
    ((⟨(0, 0), "_marker_stack_icon_0"⟩ : MarkerStackMarker)).id ≠
      ((⟨(0, 0), "_marker_stack_icon_1"⟩ : MarkerStackMarker)).id :=
  c6_anchor_exclusivity
    ⟨[⟨0, 10⟩], (0, 0),
      some [⟨(0, 0), "_marker_stack_icon_0"⟩,
        ⟨(0, 0), "_marker_stack_icon_1"⟩],
      [("_marker_stack_icon_1", [⟨10, 10⟩]),
       ("_marker_stack_icon_0", [⟨10, 10⟩])]⟩
    [⟨(0, 0), "_marker_stack_icon_0"⟩, ⟨(0, 0), "_marker_stack_icon_1"⟩]
    (Reachable.step
      (Reachable.step (Reachable.init rfl)
        (Step.push (by decide :
          MarkerStackPushCommand.run ⟨[⟨0, 10⟩], (0, 0), none, []⟩ =
            some ⟨[⟨0, 10⟩], (0, 0),
              some [⟨(0, 0), "_marker_stack_icon_0"⟩],
              [("_marker_stack_icon_0", [⟨10, 10⟩])]⟩)))
      (Step.push (by decide :
        MarkerStackPushCommand.run
          ⟨[⟨0, 10⟩], (0, 0), some [⟨(0, 0), "_marker_stack_icon_0"⟩],
            [("_marker_stack_icon_0", [⟨10, 10⟩])]⟩ =
          some ⟨[⟨0, 10⟩], (0, 0),
            some [⟨(0, 0), "_marker_stack_icon_0"⟩,
              ⟨(0, 0), "_marker_stack_icon_1"⟩],
            [("_marker_stack_icon_1", [⟨10, 10⟩]),
             ("_marker_stack_icon_0", [⟨10, 10⟩])]⟩)))
    rfl 0 1 (by decide) (by decide) (by decide)

/-- C10 (implicit stack-shape invariant, confirmed): in every state
reachable from the initial absent-stack state by push and pop operations,
whenever the persisted stack key is present its value is a non-empty
sequence whose element at index `i` carries the anchor key `prefix + i`;
in particular the empty-sequence persisted value is never reachable. -/
theorem c10_stack_shape (vw : ViewState) (l : List MarkerStackMarker)
    (hreach : Reachable vw) (hss : vw.stack_setting = some l) :
    l ≠ [] ∧ ∀ i (h : i < l.length), (l.get ⟨i, h⟩).id = icon_key_of i := by
  have hinv := stackInv_reachable hreach
  rw [hss] at hinv
  exact hinv

theorem c10_stack_shape_witness :
    ([⟨(0, 0), "_marker_stack_icon_0"⟩] : List MarkerStackMarker) ≠ [] ∧
    ∀ i (h : i < ([⟨(0, 0),
        "_marker_stack_icon_0"⟩] : List MarkerStackMarker).length),
      (([⟨(0, 0), "_marker_stack_icon_0"⟩] :
        List MarkerStackMarker).get ⟨i, h⟩).id = icon_key_of i :=
  c10_stack_shape
    ⟨[⟨0, 10⟩], (0, 0), some [⟨(0, 0), "_marker_stack_icon_0"⟩],
      [("_marker_stack_icon_0", [⟨10, 10⟩])]⟩
    [⟨(0, 0), "_marker_stack_icon_0"⟩]
    (Reachable.step (Reachable.init rfl)
      (Step.push (by decide :
        MarkerStackPushCommand.run ⟨[⟨0, 10⟩], (0, 0), none, []⟩ =
          some ⟨[⟨0, 10⟩], (0, 0),
            some [⟨(0, 0), "_marker_stack_icon_0"⟩],
            [("_marker_stack_icon_0", [⟨10, 10⟩])]⟩)))
    rfl
